import Mathlib

/-!
Verification of the `ai_memory` memory storage and retrieval engine.

The definitions below are a shallow embedding of the Python sources:
  * `custom_components/ai_memory/memory_manager.py` (`MemoryManager`)
  * `custom_components/ai_memory/embedding_tfidf.py` (`TFIDFEmbeddingEngine`)
  * `custom_components/ai_memory/embedding.py` (`EmbeddingEngine`)

Machine floats are modelled by real numbers, the SQLite `memories` table by a
list of records in insertion order, and the cooperative scheduling by plain
sequential state passing (each claim treated here concerns a single store and
sequential operations).
-/

namespace AIMemory

/-! ## Cosine similarity (`MemoryManager._cosine_similarity`) -/

/-- `np.dot` of two vectors represented as lists (used only behind the shape
check of `_cosine_similarity`, where both lists have equal length). -/
def dotList (v w : List ℝ) : ℝ :=
  (List.zipWith (fun a b => a * b) v w).sum

/-- `np.linalg.norm`: the Euclidean norm, `sqrt` of the sum of squares. -/
noncomputable def normList (v : List ℝ) : ℝ :=
  Real.sqrt (dotList v v)

/-- `MemoryManager._cosine_similarity` (memory_manager.py lines 251-262):
returns `0.0` on mismatched shapes, `0.0` when either norm is zero, and
`dot(v1,v2) / (norm(v1) * norm(v2))` otherwise. -/
noncomputable def cosine_similarity (v1 v2 : List ℝ) : ℝ :=
  if v1.length ≠ v2.length then 0
  else if normList v1 = 0 ∨ normList v2 = 0 then 0
  else dotList v1 v2 / (normList v1 * normList v2)

theorem dotList_nil_left (w : List ℝ) : dotList [] w = 0 := rfl

theorem dotList_cons (a b : ℝ) (v w : List ℝ) :
    dotList (a :: v) (b :: w) = a * b + dotList v w := by
  simp [dotList]

theorem dotList_self_nonneg (v : List ℝ) : 0 ≤ dotList v v := by
  induction v with
  | nil => simp [dotList]
  | cons a t ih =>
      rw [dotList_cons]
      nlinarith [sq_nonneg a]

theorem dotList_self_pos (v : List ℝ) (x : ℝ) (hx : x ∈ v) (hx0 : x ≠ 0) :
    0 < dotList v v := by
  induction v with
  | nil => cases hx
  | cons a t ih =>
      rw [dotList_cons]
      rcases List.mem_cons.mp hx with h | h
      · have ha : a ≠ 0 := h ▸ hx0
        have : 0 < a * a := mul_self_pos.mpr ha
        nlinarith [dotList_self_nonneg t]
      · have := ih h
        nlinarith [sq_nonneg a]

/-- The zipWith-sum dot product as a `Finset.range` sum over `getD` entries. -/
theorem dotList_eq_sum (n : ℕ) (v w : List ℝ) (hv : v.length = n) (hw : w.length = n) :
    dotList v w = ∑ i ∈ Finset.range n, v.getD i 0 * w.getD i 0 := by
  induction n generalizing v w with
  | zero =>
      rw [List.length_eq_zero] at hv hw
      subst hv; subst hw
      simp [dotList]
  | succ n ih =>
      cases v with
      | nil => simp at hv
      | cons a v' =>
          cases w with
          | nil => simp at hw
          | cons b w' =>
              simp only [List.length_cons, Nat.succ_inj] at hv hw
              rw [dotList_cons, Finset.sum_range_succ']
              simp only [List.getD_cons_succ, List.getD_cons_zero]
              rw [ih v' w' hv hw]
              ring

/-- Cauchy-Schwarz for the list dot product. -/
theorem dotList_sq_le (v w : List ℝ) (h : v.length = w.length) :
    (dotList v w) ^ 2 ≤ dotList v v * dotList w w := by
  rw [dotList_eq_sum v.length v w rfl h.symm,
      dotList_eq_sum v.length v v rfl rfl,
      dotList_eq_sum v.length w w h.symm h.symm]
  have := Finset.sum_mul_sq_le_sq_mul_sq (Finset.range v.length)
    (fun i => v.getD i 0) (fun i => w.getD i 0)
  calc (∑ i ∈ Finset.range v.length, v.getD i 0 * w.getD i 0) ^ 2
      ≤ (∑ i ∈ Finset.range v.length, v.getD i 0 ^ 2) *
        ∑ i ∈ Finset.range v.length, w.getD i 0 ^ 2 := this
    _ = (∑ i ∈ Finset.range v.length, v.getD i 0 * v.getD i 0) *
        ∑ i ∈ Finset.range v.length, w.getD i 0 * w.getD i 0 := by
          simp [sq]

theorem normList_nonneg (v : List ℝ) : 0 ≤ normList v :=
  Real.sqrt_nonneg _

theorem normList_eq_zero_iff (v : List ℝ) : normList v = 0 ↔ dotList v v = 0 := by
  unfold normList
  rw [Real.sqrt_eq_zero (dotList_self_nonneg v)]

theorem sq_normList (v : List ℝ) : normList v * normList v = dotList v v :=
  Real.mul_self_sqrt (dotList_self_nonneg v)

theorem normList_pos_of_ne_zero (v : List ℝ) (h : normList v ≠ 0) : 0 < normList v :=
  lt_of_le_of_ne (normList_nonneg v) (Ne.symm h)

/-- C7: `_cosine_similarity` returns `0.0` on mismatched dimensions and on
zero-magnitude inputs (and, being a total function, never raises); otherwise it
returns `dot(v1,v2)/(‖v1‖*‖v2‖)`, which lies in `[-1, 1]`; and for every
non-zero vector `v`, the self-similarity is exactly `1`. -/
theorem cosine_similarity_spec (v1 v2 : List ℝ) :
    (v1.length ≠ v2.length → cosine_similarity v1 v2 = 0) ∧
    (normList v1 = 0 ∨ normList v2 = 0 → cosine_similarity v1 v2 = 0) ∧
    (v1.length = v2.length → normList v1 ≠ 0 → normList v2 ≠ 0 →
      cosine_similarity v1 v2 = dotList v1 v2 / (normList v1 * normList v2) ∧
      -1 ≤ cosine_similarity v1 v2 ∧ cosine_similarity v1 v2 ≤ 1) ∧
    ((∃ x ∈ v1, x ≠ 0) → cosine_similarity v1 v1 = 1) := by
  refine ⟨?_, ?_, ?_, ?_⟩
  · intro h
    simp [cosine_similarity, h]
  · intro h
    unfold cosine_similarity
    by_cases hl : v1.length ≠ v2.length
    · rw [if_pos hl]
    · rw [if_neg hl, if_pos h]
  · intro hlen h1 h2
    have hval : cosine_similarity v1 v2 = dotList v1 v2 / (normList v1 * normList v2) := by
      unfold cosine_similarity
      rw [if_neg (by simp [hlen]), if_neg (by tauto)]
    refine ⟨hval, ?_, ?_⟩
    · rw [hval]
      have hn1 := normList_pos_of_ne_zero v1 h1
      have hn2 := normList_pos_of_ne_zero v2 h2
      have hM : 0 < normList v1 * normList v2 := mul_pos hn1 hn2
      rw [le_div_iff₀ hM]
      have hcs := dotList_sq_le v1 v2 hlen
      rw [← sq_normList v1, ← sq_normList v2] at hcs
      nlinarith [sq_nonneg (dotList v1 v2 + normList v1 * normList v2)]
    · rw [hval]
      have hn1 := normList_pos_of_ne_zero v1 h1
      have hn2 := normList_pos_of_ne_zero v2 h2
      have hM : 0 < normList v1 * normList v2 := mul_pos hn1 hn2
      rw [div_le_one hM]
      have hcs := dotList_sq_le v1 v2 hlen
      rw [← sq_normList v1, ← sq_normList v2] at hcs
      nlinarith [sq_nonneg (dotList v1 v2 - normList v1 * normList v2)]
  · rintro ⟨x, hx, hx0⟩
    have hpos : 0 < dotList v1 v1 := dotList_self_pos v1 x hx hx0
    have hn : normList v1 ≠ 0 := by
      rw [Ne, normList_eq_zero_iff]
      exact ne_of_gt hpos
    unfold cosine_similarity
    rw [if_neg (by simp), if_neg (by tauto), sq_normList, div_self (ne_of_gt hpos)]

/-- Evaluation helper: the similarity of the concrete one-dimensional vector
`[1]` with itself is `1`. -/
theorem cosine_similarity_one_one : cosine_similarity [(1 : ℝ)] [(1 : ℝ)] = 1 := by
  have hd : dotList [(1 : ℝ)] [(1 : ℝ)] = 1 := by
    rw [dotList_cons, dotList_nil_left]; norm_num
  have hn : normList [(1 : ℝ)] = 1 := by
    unfold normList
    rw [hd, Real.sqrt_one]
  unfold cosine_similarity
  rw [if_neg (by simp), if_neg (by rw [hn]; norm_num), hd, hn]
  norm_num

/-- Witness for `cosine_similarity_spec` at the concrete non-zero vector `[1]`. -/
theorem cosine_similarity_spec_witness :
    (cosine_similarity [(1 : ℝ)] [(1 : ℝ)] =
        dotList [(1 : ℝ)] [(1 : ℝ)] / (normList [(1 : ℝ)] * normList [(1 : ℝ)]) ∧
      -1 ≤ cosine_similarity [(1 : ℝ)] [(1 : ℝ)] ∧
      cosine_similarity [(1 : ℝ)] [(1 : ℝ)] ≤ 1) ∧
    cosine_similarity [(1 : ℝ)] [(1 : ℝ)] = 1 := by
  have hn : normList [(1 : ℝ)] ≠ 0 := by
    have hd : dotList [(1 : ℝ)] [(1 : ℝ)] = 1 := by
      rw [dotList_cons, dotList_nil_left]; norm_num
    unfold normList
    rw [hd, Real.sqrt_one]
    norm_num
  exact ⟨(cosine_similarity_spec [(1 : ℝ)] [(1 : ℝ)]).2.2.1 rfl hn hn,
    (cosine_similarity_spec [(1 : ℝ)] [(1 : ℝ)]).2.2.2 ⟨1, by simp, one_ne_zero⟩⟩

/-! ## Memory store (`MemoryManager`, memory_manager.py)

The SQLite table `memories` is modelled as a list of rows in insertion order.
The `metadata` column stores exactly `{type, scope, agent_id, created_at}`
copied from the other columns at insert time, so it is not duplicated in the
record model. ISO-format `created_at` strings compare chronologically, so
timestamps are modelled as naturals. -/

structure MemoryRecord where
  id : ℕ
  content : String
  embedding : List ℝ
  scope : String
  agent_id : Option String
  created_at : ℕ

/-- Python `str.strip()`: removes leading and trailing whitespace.
(`not content or not content.strip()` is equivalent to
`content.strip() == ""`.) -/
def pyStrip (s : String) : String :=
  ⟨(((s.data.dropWhile Char.isWhitespace).reverse).dropWhile Char.isWhitespace).reverse⟩

/-- Python truthiness of `not agent_id` for an `Optional[str]`:
`None` and the empty string are both falsy. -/
def agentAbsent : Option String → Bool
  | none => true
  | some s => s = ""

/-- Outcome of `self._embedding_engine.async_generate_embedding(content)`:
either a vector or a raised exception. -/
inductive EmbedResult where
  | ok (v : List ℝ)
  | err

/-- The scalar `SELECT MIN` implicit in
`SELECT id FROM memories ORDER BY created_at ASC LIMIT 1`. -/
def dbMinCreated : List MemoryRecord → ℕ
  | [] => 0
  | r :: rs => rs.foldl (fun m x => min m x.created_at) r.created_at

/-- `DELETE FROM memories WHERE id = (SELECT id FROM memories ORDER BY
created_at ASC LIMIT 1)`: removes the row with the least `created_at`
(the first such row in scan order; on an empty table the subquery is NULL and
nothing is deleted). -/
def deleteOldest (db : List MemoryRecord) : List MemoryRecord :=
  db.eraseP (fun r => r.created_at == dbMinCreated db)

/-- `MemoryManager.async_add_memory` (memory_manager.py lines 122-188).
Validation happens before any write; the capacity check deletes the oldest row
when the table already holds at least `maxEntries` rows; an embedding failure
is logged and the record is inserted with an empty embedding. The fresh
`uuid`/`datetime.now()` pair is passed in as `mem_id`/`created_at`. -/
def async_add_memory (db : List MemoryRecord) (maxEntries : ℕ)
    (content scope : String) (agent_id : Option String)
    (embedRes : EmbedResult) (mem_id : ℕ) (created_at : ℕ) :
    Except String (List MemoryRecord) :=
  if pyStrip content = "" then .ok db
  else if ¬(scope = "common" ∨ scope = "private") then .error "Invalid scope"
  else if scope = "private" ∧ agentAbsent agent_id then
    .error "Agent ID required for private scope"
  else
    let db1 := if maxEntries ≤ db.length then deleteOldest db else db
    let emb := match embedRes with
      | .ok v => v
      | .err => []
    .ok (db1 ++ [⟨mem_id, pyStrip content, emb, scope, agent_id, created_at⟩])

/-- `MemoryManager.async_clear_memory`: `DELETE FROM memories`. -/
def async_clear_memory (_db : List MemoryRecord) : List MemoryRecord := []

/-! ## Retrieval (`async_search_memory`, `async_get_all_memories`) -/

/-- SQL equality `agent_id = ?` under NULL semantics: true only when both
sides are non-NULL and equal. -/
def sqlEqOpt : Option String → Option String → Bool
  | some x, some y => x == y
  | _, _ => false

/-- The WHERE clause `scope = 'common' OR (scope = 'private' AND agent_id = ?)`
shared by `async_search_memory` and `async_get_all_memories`. -/
def scopeVisible (agent_id : Option String) (r : MemoryRecord) : Bool :=
  r.scope == "common" || (r.scope == "private" && sqlEqOpt r.agent_id agent_id)

/-- One entry of the list returned by `async_search_memory`: `content`, the
similarity `score`, and the stored metadata (scope, agent_id, created_at). -/
structure SearchResult where
  content : String
  score : ℝ
  scope : String
  agent_id : Option String
  created_at : ℕ

/-- `scored_memories.sort(key=lambda x: x["score"], reverse=True)`: a stable
descending sort by score. -/
noncomputable def sortByScoreDesc (l : List SearchResult) : List SearchResult :=
  l.mergeSort (fun a b => decide (b.score ≤ a.score))

/-- `MemoryManager.async_search_memory` (memory_manager.py lines 190-249):
empty query short-circuits; the SQL hard filter keeps `common` rows and
`private` rows of the requesting agent; a failed or empty query embedding
yields no results; rows with empty stored embeddings are skipped; surviving
rows are scored by cosine similarity, kept only when the score is strictly
above the threshold, sorted by descending score and truncated to `limit`. -/
noncomputable def async_search_memory (db : List MemoryRecord) (query : String)
    (agent_id : Option String) (limit : ℕ) (queryEmbed : EmbedResult)
    (threshold : ℝ) : List SearchResult :=
  if query = "" then []
  else if (db.filter (scopeVisible agent_id)).isEmpty then []
  else
    match queryEmbed with
    | .err => []
    | .ok query_embedding =>
      if query_embedding.isEmpty then []
      else
        (sortByScoreDesc ((db.filter (scopeVisible agent_id)).filterMap
          (fun r =>
            if r.embedding.isEmpty then none
            else if threshold < cosine_similarity query_embedding r.embedding then
              some ⟨r.content, cosine_similarity query_embedding r.embedding,
                r.scope, r.agent_id, r.created_at⟩
            else none))).take limit

/-- One entry of the list returned by `async_get_all_memories`: `content` plus
the stored metadata. -/
structure MemoryItem where
  content : String
  scope : String
  agent_id : Option String
  created_at : ℕ

/-- `MemoryManager.async_get_all_memories` (memory_manager.py lines 264-287):
the same scope filter, ordered by `created_at DESC`, returning content and
metadata only. -/
def async_get_all_memories (db : List MemoryRecord) (agent_id : Option String) :
    List MemoryItem :=
  ((db.filter (scopeVisible agent_id)).mergeSort
      (fun a b => decide (b.created_at ≤ a.created_at))).map
    (fun r => ⟨r.content, r.scope, r.agent_id, r.created_at⟩)

/-- Every search result originates from a stored row that passed the scope
filter, had a non-empty embedding, and scored strictly above the threshold. -/
theorem mem_search_elim (db : List MemoryRecord) (q : String) (owner : Option String)
    (lim : ℕ) (qe : EmbedResult) (th : ℝ) (x : SearchResult)
    (hx : x ∈ async_search_memory db q owner lim qe th) :
    ∃ r qv, r ∈ db ∧ scopeVisible owner r = true ∧ r.embedding ≠ [] ∧
      qe = .ok qv ∧ x.score = cosine_similarity qv r.embedding ∧ th < x.score ∧
      x.content = r.content ∧ x.scope = r.scope ∧ x.agent_id = r.agent_id ∧
      x.created_at = r.created_at := by
  unfold async_search_memory at hx
  by_cases hq : q = ""
  · rw [if_pos hq] at hx; cases hx
  rw [if_neg hq] at hx
  by_cases hr : (db.filter (scopeVisible owner)).isEmpty
  · rw [if_pos hr] at hx; cases hx
  rw [if_neg hr] at hx
  cases qe with
  | err => dsimp only at hx; cases hx
  | ok qv =>
    dsimp only at hx
    by_cases hqv : qv.isEmpty
    · rw [if_pos hqv] at hx; cases hx
    rw [if_neg hqv] at hx
    have hx1 : x ∈ sortByScoreDesc ((db.filter (scopeVisible owner)).filterMap
        (fun r =>
          if r.embedding.isEmpty then none
          else if th < cosine_similarity qv r.embedding then
            some ⟨r.content, cosine_similarity qv r.embedding,
              r.scope, r.agent_id, r.created_at⟩
          else none)) := List.mem_of_mem_take hx
    have hx2 := List.mem_mergeSort.mp hx1
    obtain ⟨r, hrmem, hfr⟩ := List.mem_filterMap.mp hx2
    by_cases he : r.embedding.isEmpty
    · rw [if_pos he] at hfr; cases hfr
    rw [if_neg he] at hfr
    by_cases hth : th < cosine_similarity qv r.embedding
    · rw [if_pos hth] at hfr
      obtain rfl := Option.some.inj hfr
      obtain ⟨hrdb, hvis⟩ := List.mem_filter.mp hrmem
      exact ⟨r, qv, hrdb, hvis, fun hnil => he (by rw [hnil]; rfl), rfl, rfl, hth,
        rfl, rfl, rfl, rfl⟩
    · rw [if_neg hth] at hfr; cases hfr

/-- Every `getAll` result originates from a stored row passing the scope filter. -/
theorem mem_getAll_elim (db : List MemoryRecord) (owner : Option String)
    (x : MemoryItem) (hx : x ∈ async_get_all_memories db owner) :
    ∃ r, r ∈ db ∧ scopeVisible owner r = true ∧ x.content = r.content ∧
      x.scope = r.scope ∧ x.agent_id = r.agent_id ∧ x.created_at = r.created_at := by
  unfold async_get_all_memories at hx
  obtain ⟨r, hr, rfl⟩ := List.mem_map.mp hx
  have hr2 := List.mem_mergeSort.mp hr
  obtain ⟨hrdb, hvis⟩ := List.mem_filter.mp hr2
  exact ⟨r, hrdb, hvis, rfl, rfl, rfl, rfl⟩

/-- Unpacking the SQL scope filter: a visible row is either `common`, or
`private` with an `agent_id` equal (as a non-NULL SQL value) to the
requesting owner. -/
theorem scopeVisible_cases (owner : Option String) (r : MemoryRecord)
    (h : scopeVisible owner r = true) :
    r.scope = "common" ∨ (r.scope = "private" ∧ r.agent_id = owner) := by
  unfold scopeVisible at h
  rcases Bool.or_eq_true_iff.mp h with h1 | h2
  · exact Or.inl (by simpa using h1)
  · rcases Bool.and_eq_true_iff.mp h2 with ⟨hs, he⟩
    refine Or.inr ⟨by simpa using hs, ?_⟩
    cases ha : r.agent_id with
    | none => rw [ha] at he; cases owner <;> simp [sqlEqOpt] at he
    | some a =>
        rw [ha] at he
        cases owner with
        | none => simp [sqlEqOpt] at he
        | some b => simp only [sqlEqOpt, beq_iff_eq] at he; rw [he]

/-- C1: neither `async_search_memory` nor `async_get_all_memories` ever
returns a record with `scope = "private"` whose owner differs from the
requesting owner: every result is a `common` record or a `private` record
whose `agent_id` equals the requester, regardless of similarity score. -/
theorem search_getAll_scope_isolation (db : List MemoryRecord) (q : String)
    (owner : Option String) (lim : ℕ) (qe : EmbedResult) (th : ℝ) :
    (∀ x ∈ async_search_memory db q owner lim qe th,
        x.scope = "common" ∨ (x.scope = "private" ∧ x.agent_id = owner)) ∧
    (∀ x ∈ async_get_all_memories db owner,
        x.scope = "common" ∨ (x.scope = "private" ∧ x.agent_id = owner)) := by
  constructor
  · intro x hx
    obtain ⟨r, qv, _, hvis, _, _, _, _, _, hscope, hagent, _⟩ :=
      mem_search_elim db q owner lim qe th x hx
    rw [hscope, hagent]
    exact scopeVisible_cases owner r hvis
  · intro x hx
    obtain ⟨r, _, hvis, _, hscope, hagent, _⟩ := mem_getAll_elim db owner x hx
    rw [hscope, hagent]
    exact scopeVisible_cases owner r hvis

/-- C4: a candidate appears among search results only when its cosine
similarity to the query embedding is strictly greater than the configured
threshold; a score exactly equal to the threshold is excluded. -/
theorem search_threshold_strict (db : List MemoryRecord) (q : String)
    (owner : Option String) (lim : ℕ) (qv : List ℝ) (th : ℝ) (x : SearchResult)
    (hx : x ∈ async_search_memory db q owner lim (.ok qv) th) :
    th < x.score ∧
      ∃ r, r ∈ db ∧ r.embedding ≠ [] ∧ x.score = cosine_similarity qv r.embedding := by
  obtain ⟨r, qv', hrdb, _, hemb, hqe, hscore, hth, _, _, _, _⟩ :=
    mem_search_elim db q owner lim (.ok qv) th x hx
  obtain rfl : qv = qv' := EmbedResult.ok.inj hqe
  exact ⟨hth, r, hrdb, hemb, hscore⟩

/-- C6: an add whose embedding generation raises still succeeds and persists
the record with an empty embedding; and every search result originates from a
record with a non-empty embedding, so records with empty embeddings never
appear in any search result. -/
theorem embed_failure_stored_but_unsearchable :
    (∀ (db : List MemoryRecord) (maxE : ℕ) (content scope : String)
        (agent_id : Option String) (id t : ℕ),
      pyStrip content ≠ "" → (scope = "common" ∨ scope = "private") →
      ¬(scope = "private" ∧ agentAbsent agent_id = true) →
      async_add_memory db maxE content scope agent_id .err id t =
        .ok ((if maxE ≤ db.length then deleteOldest db else db) ++
          [⟨id, pyStrip content, [], scope, agent_id, t⟩])) ∧
    (∀ (db : List MemoryRecord) (q : String) (owner : Option String) (lim : ℕ)
        (qe : EmbedResult) (th : ℝ) (x : SearchResult),
      x ∈ async_search_memory db q owner lim qe th →
      ∃ r, r ∈ db ∧ r.embedding ≠ [] ∧ x.content = r.content ∧
        x.scope = r.scope ∧ x.agent_id = r.agent_id ∧ x.created_at = r.created_at) := by
  constructor
  · intro db maxE content scope agent_id id t hc hs ha
    unfold async_add_memory
    rw [if_neg hc, if_neg (by tauto), if_neg (by tauto)]
  · intro db q owner lim qe th x hx
    obtain ⟨r, _, hrdb, _, hemb, _, _, _, hcont, hscope, hagent, hcreated⟩ :=
      mem_search_elim db q owner lim qe th x hx
    exact ⟨r, hrdb, hemb, hcont, hscope, hagent, hcreated⟩

/-- Concrete private record used to exercise the retrieval pipeline. -/
def recW : MemoryRecord :=
  ⟨1, "pizza", [(1 : ℝ)], "private", some "a", 5⟩

/-- The search result produced for `recW` by a query embedding `[1]`. -/
def resW : SearchResult :=
  ⟨"pizza", 1, "private", some "a", 5⟩

/-- Concrete evaluation of the full search pipeline on a one-record store. -/
theorem search_eval_concrete :
    async_search_memory [recW] "food" (some "a") 5 (.ok [(1 : ℝ)]) (1 / 2) = [resW] := by
  unfold async_search_memory
  rw [if_neg (show ¬("food" = "") from by decide)]
  have h1 : List.filter (scopeVisible (some "a")) [recW] = [recW] := by
    rw [List.filter_cons, if_pos (show scopeVisible (some "a") recW = true from by decide)]
    rfl
  rw [h1, if_neg (show ¬(([recW] : List MemoryRecord).isEmpty = true) from by decide)]
  dsimp only
  rw [if_neg (show ¬(([(1 : ℝ)] : List ℝ).isEmpty = true) from by decide)]
  have hf : (if (recW.embedding).isEmpty = true then (none : Option SearchResult)
      else if (1 / 2 : ℝ) < cosine_similarity [(1 : ℝ)] recW.embedding then
        some ⟨recW.content, cosine_similarity [(1 : ℝ)] recW.embedding,
          recW.scope, recW.agent_id, recW.created_at⟩
      else none) = some resW := by
    rw [show recW.embedding = [(1 : ℝ)] from rfl, cosine_similarity_one_one]
    rw [if_neg (by decide), if_pos (by norm_num)]
    rfl
  rw [List.filterMap_cons, hf, List.filterMap_nil]
  unfold sortByScoreDesc
  rw [List.mergeSort_singleton]
  rfl

/-- Witness for `search_getAll_scope_isolation`: on a concrete store the search
returns a result, and the theorem classifies it as an owned private record. -/
theorem search_getAll_scope_isolation_witness :
    resW.scope = "common" ∨ (resW.scope = "private" ∧ resW.agent_id = some "a") :=
  (search_getAll_scope_isolation [recW] "food" (some "a") 5 (.ok [(1 : ℝ)]) (1 / 2)).1
    resW (by rw [search_eval_concrete]; exact List.mem_singleton.mpr rfl)

/-- Witness for `search_threshold_strict` at a concrete store and query. -/
theorem search_threshold_strict_witness :
    (1 / 2 : ℝ) < resW.score ∧
      ∃ r, r ∈ [recW] ∧ r.embedding ≠ [] ∧
        resW.score = cosine_similarity [(1 : ℝ)] r.embedding :=
  search_threshold_strict [recW] "food" (some "a") 5 [(1 : ℝ)] (1 / 2) resW
    (by rw [search_eval_concrete]; exact List.mem_singleton.mpr rfl)

/-- Witness for `embed_failure_stored_but_unsearchable`: a concrete add with a
failed embedding persists an empty-embedding record, and the concrete search
result is traced back to a non-empty-embedding record. -/
theorem embed_failure_stored_but_unsearchable_witness :
    (async_add_memory [] 10 "hello" "common" none .err 7 3 =
      .ok [⟨7, "hello", [], "common", none, 3⟩]) ∧
    (∃ r, r ∈ [recW] ∧ r.embedding ≠ [] ∧ resW.content = r.content ∧
      resW.scope = r.scope ∧ resW.agent_id = r.agent_id ∧
      resW.created_at = r.created_at) := by
  constructor
  · have h := embed_failure_stored_but_unsearchable.1 [] 10 "hello" "common" none 7 3
      (by decide) (Or.inl rfl) (by simp [agentAbsent])
    rw [h]
    rfl
  · exact embed_failure_stored_but_unsearchable.2 [recW] "food" (some "a") 5
      (.ok [(1 : ℝ)]) (1 / 2) resW
      (by rw [search_eval_concrete]; exact List.mem_singleton.mpr rfl)

/-! ## Validation and capacity behaviour of `async_add_memory` -/

/-- C5: empty or whitespace-only content makes `async_add_memory` return with
the store unchanged and no error raised; a scope outside
`{"common", "private"}` and a private scope with an absent owner are rejected
synchronously with a raised validation error, before any eviction or insert
touches the store. -/
theorem add_validation_spec (db : List MemoryRecord) (maxE : ℕ)
    (content scope : String) (agent_id : Option String)
    (e : EmbedResult) (id t : ℕ) :
    (pyStrip content = "" →
      async_add_memory db maxE content scope agent_id e id t = .ok db) ∧
    (pyStrip content ≠ "" → ¬(scope = "common" ∨ scope = "private") →
      async_add_memory db maxE content scope agent_id e id t =
        .error "Invalid scope") ∧
    (pyStrip content ≠ "" → scope = "private" → agentAbsent agent_id = true →
      async_add_memory db maxE content scope agent_id e id t =
        .error "Agent ID required for private scope") := by
  refine ⟨?_, ?_, ?_⟩
  · intro h
    unfold async_add_memory
    rw [if_pos h]
  · intro hc hs
    unfold async_add_memory
    rw [if_neg hc, if_pos hs]
  · intro hc hs ha
    unfold async_add_memory
    rw [if_neg hc, if_neg (by tauto), if_pos ⟨hs, ha⟩]

/-- Witness for `add_validation_spec`: whitespace-only content is a silent
no-op, a bogus scope raises, and private scope without an owner raises. -/
theorem add_validation_spec_witness :
    (async_add_memory [recW] 10 "  " "common" none .err 7 9 = .ok [recW]) ∧
    (async_add_memory [recW] 10 "hi" "bogus" none .err 7 9 =
      .error "Invalid scope") ∧
    (async_add_memory [recW] 10 "hi" "private" none .err 7 9 =
      .error "Agent ID required for private scope") :=
  ⟨(add_validation_spec [recW] 10 "  " "common" none .err 7 9).1 (by decide),
   (add_validation_spec [recW] 10 "hi" "bogus" none .err 7 9).2.1 (by decide) (by decide),
   (add_validation_spec [recW] 10 "hi" "private" none .err 7 9).2.2 (by decide) rfl rfl⟩

/-- Deleting the oldest row from a non-empty table removes exactly one row,
and that row's `created_at` is minimal among all rows. -/
theorem deleteOldest_spec (db : List MemoryRecord) (h : db ≠ []) :
    ∃ l1 r l2, db = l1 ++ r :: l2 ∧ deleteOldest db = l1 ++ l2 ∧
      (∀ x ∈ db, r.created_at ≤ x.created_at) ∧
      (deleteOldest db).length + 1 = db.length := by
  have hmin_le : ∀ x ∈ db, dbMinCreated db ≤ x.created_at := by
    cases db with
    | nil => intro x hx; cases hx
    | cons r0 rs =>
        unfold dbMinCreated
        have gen : ∀ (l : List MemoryRecord) (m : ℕ),
            (l.foldl (fun m x => min m x.created_at) m ≤ m) ∧
            (∀ x ∈ l, l.foldl (fun m x => min m x.created_at) m ≤ x.created_at) := by
          intro l
          induction l with
          | nil => exact fun m => ⟨le_refl m, fun x hx => absurd hx (List.not_mem_nil x)⟩
          | cons a tl ih =>
              intro m
              refine ⟨le_trans (ih (min m a.created_at)).1 (min_le_left _ _), ?_⟩
              intro x hx
              rcases List.mem_cons.mp hx with rfl | hx'
              · exact le_trans (ih (min m x.created_at)).1 (min_le_right _ _)
              · exact (ih (min m a.created_at)).2 x hx'
        intro x hx
        rcases List.mem_cons.mp hx with rfl | hx'
        · exact (gen rs x.created_at).1
        · exact (gen rs r0.created_at).2 x hx'
  have hmem : ∃ r ∈ db, r.created_at = dbMinCreated db := by
    cases db with
    | nil => exact absurd rfl h
    | cons r0 rs =>
        have gen : ∀ (l : List MemoryRecord) (m : ℕ),
            l.foldl (fun m x => min m x.created_at) m = m ∨
            ∃ r ∈ l, r.created_at = l.foldl (fun m x => min m x.created_at) m := by
          intro l
          induction l with
          | nil => exact fun m => Or.inl rfl
          | cons a tl ih =>
              intro m
              rcases ih (min m a.created_at) with heq | ⟨r, hr, hre⟩
              · rcases min_cases m a.created_at with ⟨hm, _⟩ | ⟨hm, _⟩
                · exact Or.inl (by rw [List.foldl_cons, heq, hm])
                · exact Or.inr ⟨a, List.mem_cons_self a tl, by rw [List.foldl_cons, heq, hm]⟩
              · exact Or.inr ⟨r, List.mem_cons_of_mem a hr, hre⟩
        unfold dbMinCreated
        rcases gen rs r0.created_at with heq | ⟨r, hr, hre⟩
        · exact ⟨r0, List.mem_cons_self r0 rs, heq.symm⟩
        · exact ⟨r, List.mem_cons_of_mem r0 hr, hre⟩
  obtain ⟨r, hrmem, hrmin⟩ := hmem
  have hp : (fun x : MemoryRecord => x.created_at == dbMinCreated db) r = true := by
    simp [hrmin]
  obtain ⟨a, l1, l2, _, hpa, heq, herase⟩ :=
    @List.exists_of_eraseP MemoryRecord
      (fun x => x.created_at == dbMinCreated db) db r hrmem hp
  have hamin : a.created_at = dbMinCreated db := by simpa using hpa
  refine ⟨l1, a, l2, heq, herase, ?_, ?_⟩
  · intro x hx
    rw [hamin]
    exact hmin_le x hx
  · show (db.eraseP (fun r => r.created_at == dbMinCreated db)).length + 1 = db.length
    rw [herase, heq]
    simp
    omega

/-- C10 (amended): a successful add grows the store by one when strictly below
`max_entries`; at or above the bound with at least one stored record it first
deletes exactly one record, so the count is preserved — in particular a store
that exceeds the bound is never shrunk back down by further adds. The
amendment excludes the empty store with `max_entries = 0`, where the eviction
deletes nothing and the count still grows to 1. -/
theorem add_count_spec (db : List MemoryRecord) (maxE : ℕ)
    (content scope : String) (agent_id : Option String)
    (e : EmbedResult) (id t : ℕ)
    (hc : pyStrip content ≠ "") (hs : scope = "common" ∨ scope = "private")
    (ha : ¬(scope = "private" ∧ agentAbsent agent_id = true)) :
    (db.length < maxE → ∃ db',
      async_add_memory db maxE content scope agent_id e id t = .ok db' ∧
      db'.length = db.length + 1) ∧
    (maxE ≤ db.length → 1 ≤ db.length → ∃ db',
      async_add_memory db maxE content scope agent_id e id t = .ok db' ∧
      db'.length = db.length) ∧
    (maxE < db.length → ∃ db',
      async_add_memory db maxE content scope agent_id e id t = .ok db' ∧
      db'.length = db.length ∧ maxE < db'.length) := by
  have hok : async_add_memory db maxE content scope agent_id e id t =
      .ok ((if maxE ≤ db.length then deleteOldest db else db) ++
        [⟨id, pyStrip content,
          (match e with | .ok v => v | .err => []), scope, agent_id, t⟩]) := by
    unfold async_add_memory
    rw [if_neg hc, if_neg (by tauto), if_neg ha]
  refine ⟨?_, ?_, ?_⟩
  · intro hlt
    refine ⟨_, hok, ?_⟩
    rw [if_neg (by omega)]
    simp
  · intro hge h1
    refine ⟨_, hok, ?_⟩
    rw [if_pos hge]
    obtain ⟨l1, r, l2, _, _, _, hlen⟩ :=
      deleteOldest_spec db (List.length_pos.mp (by omega))
    simp only [List.length_append, List.length_cons, List.length_nil]
    omega
  · intro hgt
    refine ⟨_, hok, ?_, ?_⟩
    · rw [if_pos (le_of_lt hgt)]
      obtain ⟨l1, r, l2, _, _, _, hlen⟩ :=
        deleteOldest_spec db (List.length_pos.mp (by omega))
      simp only [List.length_append, List.length_cons, List.length_nil]
      omega
    · rw [if_pos (le_of_lt hgt)]
      obtain ⟨l1, r, l2, _, _, _, hlen⟩ :=
        deleteOldest_spec db (List.length_pos.mp (by omega))
      simp only [List.length_append, List.length_cons, List.length_nil]
      omega

/-- Witness for `add_count_spec`: below the bound the count grows by one, and
at the bound (store of one record, `max_entries = 1`) it is preserved. -/
theorem add_count_spec_witness :
    (∃ db', async_add_memory [recW] 10 "hi" "common" none .err 7 9 = .ok db' ∧
      db'.length = 2) ∧
    (∃ db', async_add_memory [recW] 1 "hi" "common" none .err 7 9 = .ok db' ∧
      db'.length = 1) :=
  ⟨(add_count_spec [recW] 10 "hi" "common" none .err 7 9 (by decide)
      (Or.inl rfl) (by simp)).1 (by decide),
   (add_count_spec [recW] 1 "hi" "common" none .err 7 9 (by decide)
      (Or.inl rfl) (by simp)).2.1 (by decide) (by decide)⟩

/-- Counterexample to C10 as stated: with `max_entries = 0` and an empty
store, the prior count (0) is at the bound, yet the add deletes nothing (the
table is empty) and the count grows to 1 instead of staying at 0. -/
theorem add_count_counterexample :
    async_add_memory [] 0 "hi" "common" none .err 7 9 =
      .ok [⟨7, "hi", [], "common", none, 9⟩] ∧
    ¬((0 : ℕ) ≤ ([] : List MemoryRecord).length →
      ∀ db', async_add_memory [] 0 "hi" "common" none .err 7 9 = .ok db' →
        db'.length = ([] : List MemoryRecord).length) := by
  constructor
  · rfl
  · intro h
    have := h (le_refl 0) [⟨7, "hi", [], "common", none, 9⟩] rfl
    simp at this

/-! ## Sequential inserts (capacity invariant) -/

/-- The caller-supplied arguments of one `async_add_memory` call, together
with the fresh id and timestamp generated during that call. -/
structure AddItem where
  content : String
  scope : String
  agent_id : Option String
  embed : EmbedResult
  id : ℕ
  created_at : ℕ

/-- The row a successful `async_add_memory` call inserts for `it`. -/
def mkRecord (it : AddItem) : MemoryRecord :=
  ⟨it.id, pyStrip it.content,
    (match it.embed with | .ok v => v | .err => []),
    it.scope, it.agent_id, it.created_at⟩

/-- The three validation conditions under which `async_add_memory` actually
inserts a row. -/
def validItem (it : AddItem) : Prop :=
  pyStrip it.content ≠ "" ∧ (it.scope = "common" ∨ it.scope = "private") ∧
  ¬(it.scope = "private" ∧ agentAbsent it.agent_id = true)

instance (it : AddItem) : Decidable (validItem it) := by
  unfold validItem
  infer_instance

/-- One `async_add_memory` call with the arguments packed in an `AddItem`. -/
def addStep (maxE : ℕ) (db : List MemoryRecord) (it : AddItem) :
    Except String (List MemoryRecord) :=
  async_add_memory db maxE it.content it.scope it.agent_id it.embed it.id it.created_at

/-- Sequential execution of `async_add_memory` calls, stopping at the first
raised error. -/
def goAdds (maxE : ℕ) (db : List MemoryRecord) (items : List AddItem) :
    Except String (List MemoryRecord) :=
  match items with
  | [] => .ok db
  | it :: rest =>
    match addStep maxE db it with
    | .ok db' => goAdds maxE db' rest
    | .error e => .error e

/-- Sequential inserts into an initially empty store. -/
def runAdds (maxE : ℕ) (items : List AddItem) : Except String (List MemoryRecord) :=
  goAdds maxE [] items

theorem addStep_valid (M : ℕ) (db : List MemoryRecord) (it : AddItem)
    (hv : validItem it) :
    addStep M db it =
      .ok ((if M ≤ db.length then deleteOldest db else db) ++ [mkRecord it]) := by
  obtain ⟨hc, hs, ha⟩ := hv
  unfold addStep async_add_memory
  rw [if_neg hc, if_neg (by tauto), if_neg ha]
  rfl

/-- On a store whose head is strictly the oldest row, eviction removes
exactly the head. -/
theorem deleteOldest_sorted_cons (r : MemoryRecord) (rs : List MemoryRecord)
    (h : ∀ x ∈ rs, r.created_at < x.created_at) :
    deleteOldest (r :: rs) = rs := by
  have gen : ∀ (l : List MemoryRecord) (m : ℕ), (∀ x ∈ l, m ≤ x.created_at) →
      l.foldl (fun m x => min m x.created_at) m = m := by
    intro l
    induction l with
    | nil => intro m _; rfl
    | cons a tl ih =>
        intro m hm
        rw [List.foldl_cons, min_eq_left (hm a (List.mem_cons_self a tl))]
        exact ih m (fun x hx => hm x (List.mem_cons_of_mem a hx))
  have hmin : dbMinCreated (r :: rs) = r.created_at := by
    unfold dbMinCreated
    exact gen rs r.created_at (fun x hx => le_of_lt (h x hx))
  unfold deleteOldest
  rw [List.eraseP_cons_of_pos (by simp [hmin])]

/-- Fold invariant: starting from a store of at most `M` rows sorted strictly
by timestamp and older than every pending item, valid sequential inserts with
strictly increasing timestamps keep exactly the last `M` rows. -/
theorem goAdds_spec (M : ℕ) (hM : 1 ≤ M) :
    ∀ (items : List AddItem) (db : List MemoryRecord),
      (∀ it ∈ items, validItem it) →
      List.Pairwise (fun a b : AddItem => a.created_at < b.created_at) items →
      List.Pairwise (fun a b : MemoryRecord => a.created_at < b.created_at) db →
      (∀ r ∈ db, ∀ it ∈ items, r.created_at < it.created_at) →
      db.length ≤ M →
      goAdds M db items =
        .ok ((db ++ items.map mkRecord).drop (db.length + items.length - M)) := by
  intro items
  induction items with
  | nil =>
      intro db _ _ _ _ hlen
      simp only [goAdds, List.map_nil, List.append_nil, List.length_nil, Nat.add_zero]
      rw [Nat.sub_eq_zero_of_le hlen, List.drop_zero]
  | cons it rest ih =>
      intro db hv hord hsort hcross hlen
      have hvit : validItem it := hv it (List.mem_cons_self it rest)
      have hvrest : ∀ x ∈ rest, validItem x :=
        fun x hx => hv x (List.mem_cons_of_mem it hx)
      have hordrest := List.Pairwise.of_cons hord
      have hit_lt : ∀ x ∈ rest, it.created_at < x.created_at :=
        fun x hx => List.rel_of_pairwise_cons hord hx
      rcases lt_or_eq_of_le hlen with hltM | heqM
      · -- below the bound: no eviction
        have hstep : addStep M db it = .ok (db ++ [mkRecord it]) := by
          rw [addStep_valid M db it hvit, if_neg (by omega)]
        have hsort' : List.Pairwise
            (fun a b : MemoryRecord => a.created_at < b.created_at)
            (db ++ [mkRecord it]) := by
          rw [List.pairwise_append]
          refine ⟨hsort, List.pairwise_singleton _ _, ?_⟩
          intro r hr x hx
          rw [List.mem_singleton.mp hx]
          exact hcross r hr it (List.mem_cons_self it rest)
        have hcross' : ∀ r ∈ db ++ [mkRecord it], ∀ x ∈ rest,
            r.created_at < x.created_at := by
          intro r hr x hx
          rcases List.mem_append.mp hr with hr' | hr'
          · exact hcross r hr' x (List.mem_cons_of_mem it hx)
          · rw [List.mem_singleton.mp hr']
            exact hit_lt x hx
        have hlen' : (db ++ [mkRecord it]).length ≤ M := by
          simp only [List.length_append, List.length_cons, List.length_nil]
          omega
        have := ih (db ++ [mkRecord it]) hvrest hordrest hsort' hcross' hlen'
        calc goAdds M db (it :: rest)
            = goAdds M (db ++ [mkRecord it]) rest := by
              simp only [goAdds, hstep]
          _ = .ok (((db ++ [mkRecord it]) ++ rest.map mkRecord).drop
                ((db ++ [mkRecord it]).length + rest.length - M)) := this
          _ = .ok ((db ++ (it :: rest).map mkRecord).drop
                (db.length + (it :: rest).length - M)) := by
              rw [List.append_assoc]
              simp only [List.singleton_append, List.map_cons,
                List.length_append, List.length_cons, List.length_nil]
              congr 2
              omega
      · -- at the bound: evict the oldest (the head), then insert
        cases db with
        | nil => simp at heqM; omega
        | cons r0 db0 =>
            have hhead : ∀ x ∈ db0, r0.created_at < x.created_at :=
              fun x hx => List.rel_of_pairwise_cons hsort hx
            have hdel : deleteOldest (r0 :: db0) = db0 :=
              deleteOldest_sorted_cons r0 db0 hhead
            have hstep : addStep M (r0 :: db0) it = .ok (db0 ++ [mkRecord it]) := by
              rw [addStep_valid M (r0 :: db0) it hvit, if_pos (by omega), hdel]
            have hsort0 := List.Pairwise.of_cons hsort
            have hsort' : List.Pairwise
                (fun a b : MemoryRecord => a.created_at < b.created_at)
                (db0 ++ [mkRecord it]) := by
              rw [List.pairwise_append]
              refine ⟨hsort0, List.pairwise_singleton _ _, ?_⟩
              intro r hr x hx
              rw [List.mem_singleton.mp hx]
              exact hcross r (List.mem_cons_of_mem r0 hr) it (List.mem_cons_self it rest)
            have hcross' : ∀ r ∈ db0 ++ [mkRecord it], ∀ x ∈ rest,
                r.created_at < x.created_at := by
              intro r hr x hx
              rcases List.mem_append.mp hr with hr' | hr'
              · exact hcross r (List.mem_cons_of_mem r0 hr') x (List.mem_cons_of_mem it hx)
              · rw [List.mem_singleton.mp hr']
                exact hit_lt x hx
            have hlen' : (db0 ++ [mkRecord it]).length ≤ M := by
              simp only [List.length_append, List.length_cons, List.length_nil]
              simp only [List.length_cons] at heqM
              omega
            have := ih (db0 ++ [mkRecord it]) hvrest hordrest hsort' hcross' hlen'
            calc goAdds M (r0 :: db0) (it :: rest)
                = goAdds M (db0 ++ [mkRecord it]) rest := by
                  simp only [goAdds, hstep]
              _ = .ok (((db0 ++ [mkRecord it]) ++ rest.map mkRecord).drop
                    ((db0 ++ [mkRecord it]).length + rest.length - M)) := this
              _ = .ok (((r0 :: db0) ++ (it :: rest).map mkRecord).drop
                    ((r0 :: db0).length + (it :: rest).length - M)) := by
                  have h1 : db0 ++ [mkRecord it] ++ List.map mkRecord rest =
                      db0 ++ mkRecord it :: List.map mkRecord rest := by
                    rw [List.append_assoc]; rfl
                  have hlen1 : (db0 ++ [mkRecord it]).length = db0.length + 1 := by
                    simp
                  simp only [List.length_cons] at heqM
                  have hiR : (r0 :: db0).length + (it :: rest).length - M =
                      rest.length + 1 := by
                    simp only [List.length_cons]
                    omega
                  have hiL : db0.length + 1 + rest.length - M = rest.length := by omega
                  rw [List.map_cons, h1, List.cons_append, hlen1, hiL, hiR,
                    List.drop_succ_cons]

/-- C3 (amended: for configured maximum `M ≥ 1`): after `N` sequential
successful inserts into an initially empty store with `N > M`, the store
contains exactly `M` records — the `M` most recently inserted (by strictly
increasing `created_at`) — and every insert performed at or above the bound
first deletes exactly one record, the oldest by `created_at`, before
inserting the new one. The amendment excludes `M = 0`, where the eviction on
an empty table deletes nothing and one record remains. -/
theorem capacity_invariant_spec (M : ℕ) (hM : 1 ≤ M) (items : List AddItem)
    (hv : ∀ it ∈ items, validItem it)
    (hord : List.Pairwise (fun a b : AddItem => a.created_at < b.created_at) items)
    (hN : M < items.length) :
    runAdds M items = .ok ((items.drop (items.length - M)).map mkRecord) ∧
    ((items.drop (items.length - M)).map mkRecord).length = M ∧
    (∀ (db : List MemoryRecord) (it : AddItem), validItem it → M ≤ db.length →
      addStep M db it = .ok (deleteOldest db ++ [mkRecord it])) ∧
    (∀ db : List MemoryRecord, db ≠ [] →
      ∃ l1 r l2, db = l1 ++ r :: l2 ∧ deleteOldest db = l1 ++ l2 ∧
        (∀ x ∈ db, r.created_at ≤ x.created_at) ∧
        (deleteOldest db).length + 1 = db.length) := by
  refine ⟨?_, ?_, ?_, deleteOldest_spec⟩
  · have h := goAdds_spec M hM items []
      hv hord List.Pairwise.nil (fun r hr => absurd hr (List.not_mem_nil r))
      (by simp)
    unfold runAdds
    rw [h]
    simp only [List.nil_append, List.length_nil, Nat.zero_add]
    rw [← List.map_drop]
  · rw [List.length_map, List.length_drop]
    omega
  · intro db it hvit hge
    rw [addStep_valid M db it hvit, if_pos hge]

/-- Concrete items for exercising sequential inserts. -/
def itW1 : AddItem := ⟨"alpha", "common", none, .err, 11, 1⟩

def itW2 : AddItem := ⟨"beta", "common", none, .err, 12, 2⟩

/-- Witness for `capacity_invariant_spec`: two inserts into a store with
maximum 1 leave exactly the second record. -/
theorem capacity_invariant_spec_witness :
    runAdds 1 [itW1, itW2] = .ok [mkRecord itW2] :=
  (capacity_invariant_spec 1 (by decide) [itW1, itW2]
    (by decide)
    (by
      refine List.Pairwise.cons ?_ (List.pairwise_singleton _ _)
      intro x hx
      rw [List.mem_singleton.mp hx]
      decide)
    (by decide)).1

/-- Counterexample to C3 as stated: with configured maximum `M = 0` and
`N = 1 > 0` sequential successful inserts, the store ends with one record,
not `M = 0` records (the eviction performed "at the bound" deleted nothing
because the store was empty). -/
theorem capacity_invariant_counterexample :
    runAdds 0 [⟨"solo", "common", none, .err, 1, 1⟩] =
      .ok [⟨1, "solo", [], "common", none, 1⟩] ∧
    ([(⟨1, "solo", [], "common", none, 1⟩ : MemoryRecord)].length = 0 → False) := by
  constructor
  · rfl
  · intro h
    simp at h

/-! ## TF-IDF embedding engine (`TFIDFEmbeddingEngine`, embedding_tfidf.py) -/

/-- A character matched by the regex class `\w`: alphanumeric or underscore. -/
def isWordChar (c : Char) : Bool :=
  c.isAlphanum || c = '_'

/-- Scanner for `re.findall(r'\b\w+\b', text)`: collects maximal runs of
word characters. `acc` holds the current run, reversed. -/
def tokenizeAux (cs : List Char) (acc : List Char) : List String :=
  match cs with
  | [] => if acc.isEmpty then [] else [⟨acc.reverse⟩]
  | c :: rest =>
    if isWordChar c then tokenizeAux rest (c :: acc)
    else if acc.isEmpty then tokenizeAux rest []
    else ⟨acc.reverse⟩ :: tokenizeAux rest []

/-- `TFIDFEmbeddingEngine._tokenize`: lowercase, then extract the word tokens. -/
def tokenize (text : String) : List String :=
  tokenizeAux (text.data.map Char.toLower) []

/-- Keys of `collections.Counter(tokens)` in first-occurrence order. -/
def uniqueKeysAux (seen : List String) (ts : List String) : List String :=
  match ts with
  | [] => []
  | t :: rest =>
    if t ∈ seen then uniqueKeysAux seen rest
    else t :: uniqueKeysAux (t :: seen) rest

def counterKeys (tokens : List String) : List String :=
  uniqueKeysAux [] tokens

/-- `max(term_counts.values())`. -/
def maxCount (tokens : List String) : ℕ :=
  (counterKeys tokens).foldl (fun m t => max m (tokens.count t)) 0

/-- `TFIDFEmbeddingEngine._calculate_tf`: normalized term frequency
`count / max_count`, as an association list in Counter key order. -/
noncomputable def calculate_tf (tokens : List String) : List (String × ℝ) :=
  if tokens.isEmpty then []
  else (counterKeys tokens).map
    (fun t => (t, (tokens.count t : ℝ) / (maxCount tokens : ℝ)))

/-- Mutable engine state: `vector_dim`, `_document_count` and the
`_term_document_freq` defaultdict (total function with default 0). -/
structure TFIDFState where
  vector_dim : ℕ
  document_count : ℕ
  term_document_freq : String → ℕ

/-- `TFIDFEmbeddingEngine._calculate_idf`: `1.0` on an empty vocabulary,
otherwise the smoothed `log((N + 1) / (df + 1))`. -/
noncomputable def calculate_idf (st : TFIDFState) (term : String) : ℝ :=
  if st.document_count = 0 then 1
  else Real.log (((st.document_count : ℝ) + 1) / ((st.term_document_freq term : ℝ) + 1))

/-- `TFIDFEmbeddingEngine._hash_term_to_index`: `hash(term) % vector_dim`.
Python's runtime string hash is abstracted as a parameter `pyHash`; Python's
`%` on a positive modulus is Euclidean remainder. -/
def hash_term_to_index (pyHash : String → ℤ) (dim : ℕ) (t : String) : ℕ :=
  ((pyHash t) % (dim : ℤ)).toNat

/-- The accumulation loop of `_create_vector`: start from `[0.0] * vector_dim`
and add each TF-IDF score at its hashed index (collisions sum). -/
def accumulate_vector (pyHash : String → ℤ) (dim : ℕ)
    (tf_idf : List (String × ℝ)) : List ℝ :=
  tf_idf.foldl
    (fun v p => v.set (hash_term_to_index pyHash dim p.1)
      (v.getD (hash_term_to_index pyHash dim p.1) 0 + p.2))
    (List.replicate dim (0 : ℝ))

/-- `TFIDFEmbeddingEngine._create_vector`: accumulate, then L2-normalize when
the magnitude is positive. -/
noncomputable def create_vector (pyHash : String → ℤ) (dim : ℕ)
    (tf_idf : List (String × ℝ)) : List ℝ :=
  if Real.sqrt (((accumulate_vector pyHash dim tf_idf).map (fun x => x * x)).sum) > 0 then
    (accumulate_vector pyHash dim tf_idf).map
      (fun x => x / Real.sqrt (((accumulate_vector pyHash dim tf_idf).map
        (fun x => x * x)).sum))
  else accumulate_vector pyHash dim tf_idf

/-- `TFIDFEmbeddingEngine._generate_embedding_sync` (embedding_tfidf.py lines
184-210): tokenize, TF, TF-IDF, fixed-dimension vector; all-zero vector of
dimension `vector_dim` when no tokens match. -/
noncomputable def tfidf_generate_embedding_sync (st : TFIDFState)
    (pyHash : String → ℤ) (text : String) : List ℝ :=
  if (tokenize text).isEmpty then List.replicate st.vector_dim 0
  else create_vector pyHash st.vector_dim
    ((calculate_tf (tokenize text)).map (fun p => (p.1, p.2 * calculate_idf st p.1)))

/-- `TFIDFEmbeddingEngine.async_generate_embedding` (lines 212-228): empty
text short-circuits to the zero vector, otherwise the synchronous path runs
in the executor. -/
noncomputable def tfidf_async_generate_embedding (st : TFIDFState)
    (pyHash : String → ℤ) (text : String) : List ℝ :=
  if text = "" then List.replicate st.vector_dim 0
  else tfidf_generate_embedding_sync st pyHash text

/-- `TFIDFEmbeddingEngine.update_vocabulary` (lines 159-182): no-op on an
empty token list; otherwise increments `_document_count` and the document
frequency of each distinct term. (The periodic `_save_vocabulary` write only
mirrors this state to disk.) -/
def update_vocabulary (st : TFIDFState) (text : String) : TFIDFState :=
  if (tokenize text).isEmpty then st
  else
    { st with
      document_count := st.document_count + 1
      term_document_freq := fun t =>
        if t ∈ tokenize text then st.term_document_freq t + 1
        else st.term_document_freq t }

theorem accumulate_vector_length (pyHash : String → ℤ) (dim : ℕ)
    (tf_idf : List (String × ℝ)) :
    (accumulate_vector pyHash dim tf_idf).length = dim := by
  unfold accumulate_vector
  have hfold : ∀ (l : List (String × ℝ)) (v : List ℝ),
      (l.foldl (fun v p => v.set (hash_term_to_index pyHash dim p.1)
        (v.getD (hash_term_to_index pyHash dim p.1) 0 + p.2)) v).length = v.length := by
    intro l
    induction l with
    | nil => intro v; rfl
    | cons p tl ih =>
        intro v
        rw [List.foldl_cons, ih]
        exact List.length_set ..
  rw [hfold, List.length_replicate]

theorem create_vector_length (pyHash : String → ℤ) (dim : ℕ)
    (tf_idf : List (String × ℝ)) :
    (create_vector pyHash dim tf_idf).length = dim := by
  unfold create_vector
  split
  · rw [List.length_map, accumulate_vector_length]
  · exact accumulate_vector_length pyHash dim tf_idf

/-- C8: for every input text (including the empty string and texts with no
word tokens) and every runtime hash function, the TF-IDF embedding has
exactly `vector_dim` entries, on both the sync and the async entry points.
(The hypothesis `0 < vector_dim` reflects that a zero dimension would make
`hash(term) % vector_dim` raise `ZeroDivisionError` in the source; the code
only instantiates `vector_dim = 384`.) -/
theorem tfidf_dimension_invariant (st : TFIDFState) (pyHash : String → ℤ)
    (text : String) (_hdim : 0 < st.vector_dim) :
    (tfidf_generate_embedding_sync st pyHash text).length = st.vector_dim ∧
    (tfidf_async_generate_embedding st pyHash text).length = st.vector_dim := by
  have hsync : ∀ s : String,
      (tfidf_generate_embedding_sync st pyHash s).length = st.vector_dim := by
    intro s
    unfold tfidf_generate_embedding_sync
    split
    · exact List.length_replicate ..
    · exact create_vector_length ..
  refine ⟨hsync text, ?_⟩
  unfold tfidf_async_generate_embedding
  split
  · exact List.length_replicate ..
  · exact hsync text

/-- A concrete engine state: dimension 384, empty vocabulary. -/
def st0 : TFIDFState := ⟨384, 0, fun _ => 0⟩

/-- Witness for `tfidf_dimension_invariant` on a concrete state and text. -/
theorem tfidf_dimension_invariant_witness :
    (tfidf_generate_embedding_sync st0 (fun _ => 0) "hello world").length =
      st0.vector_dim ∧
    (tfidf_async_generate_embedding st0 (fun _ => 0) "hello world").length =
      st0.vector_dim :=
  tfidf_dimension_invariant st0 (fun _ => 0) "hello world" (by decide)

/-! ## Vocabulary monotonicity across store operations -/

/-- The operations that touch the store or the TF-IDF vocabulary:
`async_add_memory` (which on success of a non-empty insert also calls
`update_vocabulary` with the raw content), a direct `update_vocabulary`
call, and `async_clear_memory`. -/
inductive StoreOp where
  | add (content scope : String) (agent_id : Option String)
      (embed : EmbedResult) (id created_at : ℕ)
  | updateVocab (text : String)
  | clear

/-- Combined state of one store: the `memories` table plus the TF-IDF
vocabulary state of its engine. -/
structure SysState where
  db : List MemoryRecord
  voc : TFIDFState

/-- One operation against the combined state. A raised validation error
leaves the state unchanged; an empty-content add returns early before the
vocabulary update; `clear` only runs `DELETE FROM memories`. -/
def sysStep (maxE : ℕ) (s : SysState) (op : StoreOp) : SysState :=
  match op with
  | .add c sc a e id t =>
    match async_add_memory s.db maxE c sc a e id t with
    | .ok db' =>
        ⟨db', if pyStrip c = "" then s.voc else update_vocabulary s.voc c⟩
    | .error _ => s
  | .updateVocab text => ⟨s.db, update_vocabulary s.voc text⟩
  | .clear => ⟨async_clear_memory s.db, s.voc⟩

theorem update_vocabulary_mono (st : TFIDFState) (text : String) :
    st.document_count ≤ (update_vocabulary st text).document_count ∧
    ∀ t, st.term_document_freq t ≤ (update_vocabulary st text).term_document_freq t := by
  unfold update_vocabulary
  split
  · exact ⟨le_refl _, fun t => le_refl _⟩
  · refine ⟨Nat.le_succ _, fun t => ?_⟩
    dsimp only
    split
    · exact Nat.le_succ _
    · exact le_refl _

theorem sysStep_voc_mono (maxE : ℕ) (s : SysState) (op : StoreOp) :
    s.voc.document_count ≤ (sysStep maxE s op).voc.document_count ∧
    ∀ t, s.voc.term_document_freq t ≤ (sysStep maxE s op).voc.term_document_freq t := by
  cases op with
  | add c sc a e id t =>
      unfold sysStep
      dsimp only
      cases h : async_add_memory s.db maxE c sc a e id t with
      | ok db' =>
          dsimp only
          split
          · exact ⟨le_refl _, fun t => le_refl _⟩
          · exact update_vocabulary_mono s.voc c
      | error msg => exact ⟨le_refl _, fun t => le_refl _⟩
  | updateVocab text => exact update_vocabulary_mono s.voc text
  | clear => exact ⟨le_refl _, fun t => le_refl _⟩

/-- C9: over every sequence of adds, direct vocabulary updates and store
clears, the TF-IDF vocabulary only grows — `document_count` never decreases
and no term's document-frequency count decreases; and `clear` deletes all
memory records while leaving `document_count` and `term_document_freq`
unchanged. -/
theorem vocabulary_monotone_spec (maxE : ℕ) (s : SysState) (ops : List StoreOp) :
    s.voc.document_count ≤ (ops.foldl (sysStep maxE) s).voc.document_count ∧
    (∀ t, s.voc.term_document_freq t ≤
      (ops.foldl (sysStep maxE) s).voc.term_document_freq t) ∧
    (sysStep maxE s .clear).db = [] ∧
    (sysStep maxE s .clear).voc = s.voc := by
  have main : ∀ (l : List StoreOp) (st : SysState),
      st.voc.document_count ≤ (l.foldl (sysStep maxE) st).voc.document_count ∧
      ∀ t, st.voc.term_document_freq t ≤
        (l.foldl (sysStep maxE) st).voc.term_document_freq t := by
    intro l
    induction l with
    | nil => exact fun st => ⟨le_refl _, fun t => le_refl _⟩
    | cons op rest ih =>
        intro st
        rw [List.foldl_cons]
        have h1 := sysStep_voc_mono maxE st op
        have h2 := ih (sysStep maxE st op)
        exact ⟨le_trans h1.1 h2.1, fun t => le_trans (h1.2 t) (h2.2 t)⟩
  exact ⟨(main ops s).1, (main ops s).2, rfl, rfl⟩

/-! ## Embedding backend selector (`EmbeddingEngine`, embedding.py)

The selector's environment abstracts the runtime outcomes of backend
construction (`_create_engine` returns `None` on any import error or
constructor exception) and of the remote engine's `_load_model` probe. -/

def ENGINE_TFIDF : String := "tfidf"

def ENGINE_REMOTE : String := "remote"

def EMBEDDINGS_VECTOR_DIM : ℕ := 384

/-- Runtime conditions for one `EmbeddingEngine` instance. -/
structure InitEnv where
  tfidf_create_ok : Bool
  tfidf_init : TFIDFState
  remote_create_ok : Bool
  remote_load_ok : Bool
  remote_gen : String → Except String (List ℝ)

/-- The object bound to `self._engine` after a successful creation. -/
inductive EngineInstance where
  | tfidfEngine (st : TFIDFState)
  | remoteEngine

/-- `EmbeddingEngine._create_engine`: construct the requested backend,
returning `None` on import failure, constructor exception, or an
unrecognized engine type. -/
def create_engine (env : InitEnv) (engine_type : String) : Option EngineInstance :=
  if engine_type = ENGINE_TFIDF then
    if env.tfidf_create_ok then some (.tfidfEngine env.tfidf_init) else none
  else if engine_type = ENGINE_REMOTE then
    if env.remote_create_ok then some .remoteEngine else none
  else none

/-- `hasattr(engine, '_load_model')`: only `RemoteEmbeddingEngine` defines
`_load_model`; `TFIDFEmbeddingEngine` does not. -/
def hasLoadModel : EngineInstance → Bool
  | .tfidfEngine _ => false
  | .remoteEngine => true

/-- `EmbeddingEngine._try_initialize_engine`: returns the engine and its name
on success, `none` when creation or `_load_model` fails. -/
def try_init_engine (env : InitEnv) (engine_type : String) :
    Option (EngineInstance × String) :=
  match create_engine env engine_type with
  | none => none
  | some eng =>
    if hasLoadModel eng && !env.remote_load_ok then none
    else some (eng, engine_type)

/-- `EmbeddingEngine._initialize_engine`: try the requested backend, then —
only when the requested backend was not already TF-IDF — fall back to TF-IDF;
raise `RuntimeError` when nothing initializes. -/
def init_engine (env : InitEnv) (engine_type : String) :
    Except String (EngineInstance × String) :=
  match try_init_engine env engine_type with
  | some r => .ok r
  | none =>
    if engine_type ≠ ENGINE_TFIDF then
      match try_init_engine env ENGINE_TFIDF with
      | some r => .ok r
      | none => .error "No embedding engine available. Please check logs."
    else .error "No embedding engine available. Please check logs."

/-- The attribute access `self._engine.generate_embedding(text)` performed by
`EmbeddingEngine._generate_embedding_sync`: `RemoteEmbeddingEngine` defines
`generate_embedding`, but `TFIDFEmbeddingEngine` defines only
`_generate_embedding_sync` and `async_generate_embedding`, so on a TF-IDF
engine the lookup raises `AttributeError`. -/
def engine_generate_embedding (env : InitEnv) :
    EngineInstance → String → Except String (List ℝ)
  | .tfidfEngine _, _ =>
      .error "AttributeError: TFIDFEmbeddingEngine has no attribute generate_embedding"
  | .remoteEngine, text => env.remote_gen text

/-- `EmbeddingEngine._generate_embedding_sync`: lazily initialize, then
delegate to the active engine's `generate_embedding`. -/
def selector_generate_embedding_sync (env : InitEnv) (engine_type : String)
    (text : String) : Except String (List ℝ) :=
  match init_engine env engine_type with
  | .error e => .error e
  | .ok (eng, _) => engine_generate_embedding env eng text

/-- `EmbeddingEngine.async_generate_embedding`: empty text short-circuits to
the zero vector of the configured dimension. -/
def selector_async_generate_embedding (env : InitEnv) (engine_type : String)
    (text : String) : Except String (List ℝ) :=
  if text = "" then .ok (List.replicate EMBEDDINGS_VECTOR_DIM 0)
  else selector_generate_embedding_sync env engine_type text

/-- `EmbeddingEngine.engine_name` after lazy initialization. -/
def selector_engine_name (env : InitEnv) (engine_type : String) : Option String :=
  match init_engine env engine_type with
  | .ok r => some r.2
  | .error _ => none

/-- C2 — what the code actually does at the claim's premises (the claim FAILS
on the code): with the requested `remote` backend always failing construction
and TF-IDF constructing successfully, fallback initialization selects the
TF-IDF engine and `engine_name` reports `"tfidf"`; but `embed` on any
non-empty text then raises `AttributeError` instead of returning a vector,
because `EmbeddingEngine._generate_embedding_sync` calls
`self._engine.generate_embedding(text)` and `TFIDFEmbeddingEngine` defines no
`generate_embedding` method. -/
theorem fallback_embed_attribute_error (env : InitEnv)
    (hrc : env.remote_create_ok = false) (htc : env.tfidf_create_ok = true)
    (text : String) (ht : text ≠ "") :
    init_engine env ENGINE_REMOTE = .ok (.tfidfEngine env.tfidf_init, ENGINE_TFIDF) ∧
    selector_engine_name env ENGINE_REMOTE = some ENGINE_TFIDF ∧
    selector_async_generate_embedding env ENGINE_REMOTE text =
      .error "AttributeError: TFIDFEmbeddingEngine has no attribute generate_embedding" := by
  have hcr : create_engine env ENGINE_REMOTE = none := by
    unfold create_engine
    rw [if_neg (by decide), if_pos rfl, hrc]
    rfl
  have htr : try_init_engine env ENGINE_REMOTE = none := by
    unfold try_init_engine
    rw [hcr]
  have hct : create_engine env ENGINE_TFIDF = some (.tfidfEngine env.tfidf_init) := by
    unfold create_engine
    rw [if_pos rfl, htc]
    rfl
  have htt : try_init_engine env ENGINE_TFIDF =
      some (.tfidfEngine env.tfidf_init, ENGINE_TFIDF) := by
    unfold try_init_engine
    rw [hct]
    rfl
  have hinit : init_engine env ENGINE_REMOTE =
      .ok (.tfidfEngine env.tfidf_init, ENGINE_TFIDF) := by
    unfold init_engine
    rw [htr, if_pos (by decide), htt]
  refine ⟨hinit, ?_, ?_⟩
  · unfold selector_engine_name
    rw [hinit]
  · unfold selector_async_generate_embedding
    rw [if_neg ht]
    unfold selector_generate_embedding_sync
    rw [hinit]
    rfl

/-- A concrete environment where remote construction always fails and TF-IDF
is functional. -/
def envW : InitEnv := ⟨true, st0, false, true, fun _ => .ok []⟩

/-- Witness for `fallback_embed_attribute_error` at a concrete environment
and the non-empty text `"hello"`. -/
theorem fallback_embed_attribute_error_witness :
    init_engine envW ENGINE_REMOTE = .ok (.tfidfEngine envW.tfidf_init, ENGINE_TFIDF) ∧
    selector_engine_name envW ENGINE_REMOTE = some ENGINE_TFIDF ∧
    selector_async_generate_embedding envW ENGINE_REMOTE "hello" =
      .error "AttributeError: TFIDFEmbeddingEngine has no attribute generate_embedding" :=
  fallback_embed_attribute_error envW rfl rfl "hello" (by decide)

end AIMemory
